import Mathlib

/-!
# Verification of the zipcodes real-estate analysis pipeline

A shallow embedding, in Lean 4, of the core of the `zipcodes` repository
(`backend/finance.py`, `backend/scoring.py`, `backend/cli.py`,
`backend/providers/crime_stub.py`), together with theorems checking the
natural-language specification against it.

Modelling conventions:
* Python floats are embedded as exact rationals (`ℚ`).  The pipeline's own
  policy is that every division whose float result would be non-finite
  (`inf`, `-inf`, `NaN`) is coerced to `0`; over exact rationals a division
  is non-finite exactly when its denominator is `0`, so those coercions are
  embedded as an explicit zero-denominator test.
* A pandas `DataFrame` is embedded as a `List` of row structures; columns
  added by a stage become fields of an extended row structure, mirroring the
  way attributes accumulate along the pipeline.
* Scalar Python code that can raise `ZeroDivisionError` (the amortization
  formula) is embedded with an `Option` result, `none` standing for the
  exception.
* `df.sort_values` is embedded as a comparison sort (`List.insertionSort`);
  only the membership/permutation semantics of the sort are used.
-/

/-- The `assumptions` configuration consumed by `compute_caps`
(`backend/scoring.py`). -/
structure Assumptions where
  vacancy_rate : ℚ
  maintenance_pct : ℚ
  property_management_pct : ℚ
  insurance_pct : ℚ
  capex_pct : ℚ
deriving DecidableEq, Repr

/-- The `loan_params` configuration consumed by `attach_financing_constraints`
(`backend/finance.py`). -/
structure LoanParams where
  rate : ℚ
  term_years : ℤ
  down_payment_pct : ℚ
deriving DecidableEq, Repr

/-- The `cash_costs` configuration consumed by `attach_financing_constraints`
(`backend/finance.py`).  `rehab` is embedded as a rational, matching the
numeric case of the source's `isinstance(rehab, (int, float))` test. -/
structure CashCosts where
  closing_costs_pct : ℚ
  inspection : ℚ
  appraisal : ℚ
  title_insurance : ℚ
  rehab : ℚ
  reserves_months : ℚ
deriving DecidableEq, Repr

/-- The `scoring_weights` configuration used by the scoring step of `run`
(`backend/cli.py`). -/
structure Weights where
  cap_rate : ℚ
  cash_on_cash : ℚ
  dscr : ℚ
  price : ℚ
deriving DecidableEq, Repr

/-- The hard-filter thresholds used by `run` (`backend/cli.py`):
`cap_threshold`, `budget.max_cash`, `min_dscr`. -/
structure Thresholds where
  cap_threshold : ℚ
  max_cash : ℚ
  min_dscr : ℚ
deriving DecidableEq, Repr

/-- A row of the merged table entering `compute_caps` in `run`
(`backend/cli.py`): identity, market signals and auxiliary signals.
By the time `compute_caps` is called, `run` has ensured `eff_tax_rate`,
`inventory_hits` and `crime_index` are populated (with defaults `0.015`,
`0`, `1.0` where the source signal was missing). -/
structure BaseRow where
  zip : String
  state : String
  price : ℚ
  rent : ℚ
  eff_tax_rate : ℚ
  inventory_hits : ℚ
  crime_index : ℚ
deriving DecidableEq, Repr

/-- A row after `compute_caps` (`backend/scoring.py`): the derived financial
attributes have been attached. -/
structure CapsRow extends BaseRow where
  gross_income : ℚ
  vacancy_loss : ℚ
  egi : ℚ
  tax_expense : ℚ
  insurance_expense : ℚ
  repairs : ℚ
  management : ℚ
  capex : ℚ
  operating_expenses : ℚ
  noi : ℚ
  cap_rate : ℚ
deriving DecidableEq, Repr

/-- A row after `attach_financing_constraints` (`backend/finance.py`). -/
structure FinRow extends CapsRow where
  loan_amount : ℚ
  down_payment : ℚ
  monthly_payment : ℚ
  monthly_piti : ℚ
  reserves : ℚ
  rehab_cost : ℚ
  annual_debt_service : ℚ
  cash_needed : ℚ
  dscr : ℚ
  cash_on_cash : ℚ
deriving DecidableEq, Repr

/-- A row after the scoring step of `run` (`backend/cli.py`). -/
structure ScoredRow extends FinRow where
  score : ℚ
deriving DecidableEq, Repr

/-- `mortgage_payment` (`backend/finance.py`).  Returns `none` where the
Python function raises `ZeroDivisionError`: `principal / num_payments` with
`num_payments = 0`, the amortization denominator `(1+r)^n - 1 = 0`, and
`0.0 ** n` with `n < 0`. -/
def mortgage_payment (principal rate : ℚ) (term_years : ℤ) : Option ℚ :=
  if principal = 0 then
    some 0
  else
    let monthly_rate := rate / 12
    let num_payments : ℤ := term_years * 12
    if monthly_rate = 0 then
      if (num_payments : ℚ) = 0 then none
      else some (principal / (num_payments : ℚ))
    else
      if 1 + monthly_rate = 0 ∧ num_payments < 0 then none
      else
        let growth := (1 + monthly_rate) ^ num_payments
        if growth - 1 = 0 then none
        else some (principal * (monthly_rate * growth) / (growth - 1))

/-- The per-row derivation stage of `compute_caps` (`backend/scoring.py`,
the column assignments following winsorization and imputation).  `hasTaxCol`
mirrors the table-level test `if "eff_tax_rate" in df.columns`.  The source
computes `cap_rate = noi / price` and then replaces `inf`, `-inf` and `NaN`
by `0`; over exact rationals the non-finite cases are exactly `price = 0`. -/
def compute_caps_row (hasTaxCol : Bool) (a : Assumptions) (r : BaseRow) : CapsRow :=
  let gross_income := r.rent * 12
  let vacancy_loss := gross_income * a.vacancy_rate
  let egi := gross_income - vacancy_loss
  let tax_expense := if hasTaxCol then r.price * r.eff_tax_rate else 0
  let insurance_expense := r.price * a.insurance_pct
  let repairs := r.price * a.maintenance_pct
  let management := egi * a.property_management_pct
  let capex := r.price * a.capex_pct
  let operating_expenses :=
    tax_expense + insurance_expense + repairs + management + capex
  let noi := egi - operating_expenses
  let cap_rate := if r.price = 0 then 0 else noi / r.price
  { toBaseRow := r
    gross_income := gross_income
    vacancy_loss := vacancy_loss
    egi := egi
    tax_expense := tax_expense
    insurance_expense := insurance_expense
    repairs := repairs
    management := management
    capex := capex
    operating_expenses := operating_expenses
    noi := noi
    cap_rate := cap_rate }

/-- The per-row content of `attach_financing_constraints`
(`backend/finance.py`).  The table-level source applies `mortgage_payment`
to each `loan_amount`; a `ZeroDivisionError` raised there aborts the whole
call, embedded as a `none` result.  The `dscr` and `cash_on_cash` divisions
are followed in the source by a replace of `inf`/`-inf`/`NaN` with `0`;
over exact rationals those are exactly the zero-denominator cases.
`run` (`backend/cli.py`) always calls this after `compute_caps`, so the
`tax_expense` and `insurance_expense` columns are present. -/
def attach_financing_constraints_row (lp : LoanParams) (cc : CashCosts)
    (r : CapsRow) : Option FinRow :=
  let loan_amount := r.price * (1 - lp.down_payment_pct)
  let down_payment := r.price * lp.down_payment_pct
  match mortgage_payment loan_amount lp.rate lp.term_years with
  | none => none
  | some monthly_payment =>
    let monthly_tax := r.tax_expense / 12
    let monthly_insurance := r.insurance_expense / 12
    let monthly_piti := monthly_payment + monthly_tax + monthly_insurance
    let reserves := monthly_piti * cc.reserves_months
    let rehab_cost := cc.rehab
    let annual_debt_service := monthly_payment * 12
    let closing_costs := r.price * cc.closing_costs_pct
    let cash_needed :=
      down_payment + closing_costs + rehab_cost + reserves +
        cc.inspection + cc.appraisal + cc.title_insurance
    let dscr := if annual_debt_service = 0 then 0 else r.noi / annual_debt_service
    let cash_on_cash :=
      if cash_needed = 0 then 0 else (r.noi - annual_debt_service) / cash_needed
    some
      { toCapsRow := r
        loan_amount := loan_amount
        down_payment := down_payment
        monthly_payment := monthly_payment
        monthly_piti := monthly_piti
        reserves := reserves
        rehab_cost := rehab_cost
        annual_debt_service := annual_debt_service
        cash_needed := cash_needed
        dscr := dscr
        cash_on_cash := cash_on_cash }

/-! ## Winsorization (`winsorize_by_state`, `backend/scoring.py`)

`winsorize_by_state(df, column)` clips one numeric column per state group.
It is embedded on the `(state, column)` projection of the table: a row is a
state tag plus the value of the column being winsorized. -/

/-- One (state, value) row of the column being winsorized. -/
structure WRow where
  state : String
  val : ℚ
deriving DecidableEq, Repr

/-- `Series.clip(lower, upper)`. -/
def clipQ (lo hi v : ℚ) : ℚ := min (max v lo) hi

/-- `Series.quantile(q)` with pandas' default linear interpolation on the
sorted values: `h = q·(n-1)`, `i = ⌊h⌋`, result `s[i] + (h-i)·(s[i+1]-s[i])`.
An empty series gives `NaN` in pandas; that case is unreachable here (the
loop only queries non-empty groups) and is mapped to `0`. -/
def quantile (xs : List ℚ) (q : ℚ) : ℚ :=
  let s := xs.insertionSort (fun a b => a ≤ b)
  let n := s.length
  if n = 0 then 0
  else
    let h : ℚ := q * ((n : ℚ) - 1)
    let i : ℕ := (Rat.floor h).toNat
    let frac : ℚ := h - ((Rat.floor h : ℤ) : ℚ)
    match s.get? i, s.get? (i + 1) with
    | some a, some b => a + frac * (b - a)
    | some a, none => a
    | none, _ => 0

/-- The values of the winsorized column restricted to one state group:
`df.loc[df[state_col] == state, column]`. -/
def groupVals (rows : List WRow) (st : String) : List ℚ :=
  (rows.filter (fun r => decide (r.state = st))).map (fun r => r.val)

/-- One iteration of the `for state in df[state_col].unique()` loop of
`winsorize_by_state` (`backend/scoring.py`): if the state's mask selects at
least one row, clip the group's rows to its 1st/99th percentile bounds. -/
def winsorStep (rows : List WRow) (st : String) : List WRow :=
  if 0 < (groupVals rows st).length then
    let lo := quantile (groupVals rows st) (1/100)
    let hi := quantile (groupVals rows st) (99/100)
    rows.map (fun r => if r.state = st then { r with val := clipQ lo hi r.val } else r)
  else rows

/-- `df[state_col].unique()`: the distinct states, each kept once in order
of first occurrence. -/
def uniqueStates : List WRow → List String
  | [] => []
  | r :: rest =>
    r.state :: uniqueStates (rest.filter (fun t => decide (t.state ≠ r.state)))
termination_by rows => rows.length
decreasing_by
  simp only [List.length_cons]
  exact Nat.lt_succ_of_le (List.length_filter_le _ _)

/-- `winsorize_by_state` (`backend/scoring.py`): the loop over the distinct
states, each iteration clipping that state's group in place. -/
def winsorize_by_state (rows : List WRow) : List WRow :=
  (uniqueStates rows).foldl winsorStep rows

/-! ## Filter, score and rank (`run`, `backend/cli.py`) -/

/-- The hard filter of `run` (`backend/cli.py`):
`cap_rate >= cap_threshold & cash_needed <= max_cash & dscr >= min_dscr`. -/
def hardFilter (t : Thresholds) (rows : List FinRow) : List FinRow :=
  rows.filter (fun r =>
    decide (r.cap_rate ≥ t.cap_threshold) &&
    decide (r.cash_needed ≤ t.max_cash) &&
    decide (r.dscr ≥ t.min_dscr))

/-- The score assignment of `run` (`backend/cli.py`):
`cap_rate·w_cap + cash_on_cash·w_coc + dscr·w_dscr + (1/price)·w_price·1000000`. -/
def scoreRow (w : Weights) (r : FinRow) : ScoredRow :=
  { toFinRow := r
    score :=
      r.cap_rate * w.cap_rate +
      r.cash_on_cash * w.cash_on_cash +
      r.dscr * w.dscr +
      1 / r.price * w.price * 1000000 }

/-- The soft crime penalty of `run` (`backend/cli.py`): rows with
`crime_index > 1.25` get `score *= 0.95`. -/
def applyCrimePenalty (rows : List ScoredRow) : List ScoredRow :=
  rows.map (fun r =>
    if r.crime_index > 5/4 then { r with score := r.score * (95/100) } else r)

/-- `df_filtered.sort_values("score", ascending=False)` — embedded as a
comparison sort; only its permutation semantics are used. -/
def sortByScoreDesc (rows : List ScoredRow) : List ScoredRow :=
  rows.insertionSort (fun a b => b.score ≤ a.score)

/-- The tail of `run` (`backend/cli.py`) from the hard filter to the final
ranked table: filter, score, apply the crime penalty, sort descending. -/
def runFilterRank (t : Thresholds) (w : Weights) (rows : List FinRow) :
    List ScoredRow :=
  sortByScoreDesc (applyCrimePenalty ((hardFilter t rows).map (scoreRow w)))

/-! ## Validation errors (`run` and `deltas`, `backend/cli.py`) -/

/-- The payload of the `ValueError` raised by the required-column check of
`run` (`backend/cli.py`): the message names the missing columns and the
available columns. -/
structure MergeError where
  missing : List String
  available : List String
deriving DecidableEq, Repr

/-- The required-column check of `run` (`backend/cli.py`):
`required_cols = ["price", "rent"]`; if any is absent from the merged
table's columns, raise naming the missing and the available columns. -/
def checkRequiredColumns (available : List String) : Except MergeError Unit :=
  let missing := ["price", "rent"].filter (fun c => !(available.contains c))
  if missing.isEmpty then Except.ok () else Except.error ⟨missing, available⟩

/-- The payload of the fatal error of `deltas` (`backend/cli.py`) when the
since-date snapshot is absent: the message names the exact expected file. -/
structure SnapshotError where
  expected : String
deriving DecidableEq, Repr

/-- The expected snapshot file for a since date already formatted as
`YYYYMMDD`: `backend/out/run_{since_str}.parquet`. -/
def sinceSnapshotPath (sinceStr : String) : String :=
  "backend/out/run_" ++ sinceStr ++ ".parquet"

/-- The since-snapshot existence check of `deltas` (`backend/cli.py`),
with the set of files present in `backend/out` as explicit input. -/
def checkSinceSnapshot (existing : List String) (sinceStr : String) :
    Except SnapshotError Unit :=
  if existing.contains (sinceSnapshotPath sinceStr) then Except.ok ()
  else Except.error ⟨sinceSnapshotPath sinceStr⟩

/-! ## Snapshot delta computation (`deltas`, `backend/cli.py`) -/

/-- The columns of a persisted snapshot row used by `deltas`. -/
structure SnapRow where
  zip : String
  score : ℚ
  cap_rate : ℚ
  cash_needed : ℚ
deriving DecidableEq, Repr

/-- One output row of `deltas` (`backend/cli.py`). -/
structure DeltaRow where
  zip : String
  change_type : String
  score_delta : ℚ
  cap_rate_delta : ℚ
  cash_needed_delta : ℚ
deriving DecidableEq, Repr

/-- The pandas `_merge` indicator column. -/
inductive MergeInd
  | left_only
  | right_only
  | both
deriving DecidableEq, Repr

/-- One row of `latest_df.merge(since_df, on="zip", how="outer",
indicator=True)`: the key, the indicator, and the suffixed column groups
(`none` on the absent side). -/
structure MergedRow where
  zip : String
  ind : MergeInd
  latest : Option SnapRow
  since : Option SnapRow
deriving DecidableEq, Repr

/-- The outer merge on `zip` performed by `deltas` (`backend/cli.py`):
every latest row paired with its since match (if any), followed by the
since rows with no latest match. -/
def outerMergeOnZip (latest since : List SnapRow) : List MergedRow :=
  latest.map (fun l =>
    match since.find? (fun s => decide (s.zip = l.zip)) with
    | some s => ⟨l.zip, MergeInd.both, some l, some s⟩
    | none => ⟨l.zip, MergeInd.left_only, some l, none⟩) ++
  (since.filter (fun s => !(latest.any (fun l => decide (l.zip = s.zip))))).map
    (fun s => ⟨s.zip, MergeInd.right_only, none, some s⟩)

/-- The per-merged-row body of the delta loop of `deltas`
(`backend/cli.py`): classify as `new` / `removed` / `changed`, emitting a
`changed` row only past the significance thresholds.  The suffixed columns
read in each branch are present on the indicated side, so the catch-all
arm is unreachable. -/
def deltaOfMerged (m : MergedRow) : Option DeltaRow :=
  match m.ind, m.latest, m.since with
  | MergeInd.left_only, some l, _ =>
    some ⟨m.zip, "new", l.score, l.cap_rate, l.cash_needed⟩
  | MergeInd.right_only, _, some s =>
    some ⟨m.zip, "removed", -s.score, -s.cap_rate, -s.cash_needed⟩
  | MergeInd.both, some l, some s =>
    let score_delta := l.score - s.score
    let cap_delta := l.cap_rate - s.cap_rate
    let cash_delta := l.cash_needed - s.cash_needed
    if |score_delta| > 1/100 ∨ |cap_delta| > 1/1000 ∨ |cash_delta| > 100 then
      some ⟨m.zip, "changed", score_delta, cap_delta, cash_delta⟩
    else none
  | _, _, _ => none

/-- The delta computation of `deltas` (`backend/cli.py`): merge the two
snapshots and collect the emitted delta rows. -/
def computeDeltas (latest since : List SnapRow) : List DeltaRow :=
  (outerMergeOnZip latest since).filterMap deltaOfMerged

/-! ## Crime provider (`load_crime`, `backend/providers/crime_stub.py`) -/

/-- One row of the crime signal table. -/
structure CrimeRow where
  zip : String
  crime_index : ℚ
deriving DecidableEq, Repr

/-- `str.zfill(5)`: left-pad with `'0'` to width 5. -/
def zfill5 (s : String) : String :=
  if s.length ≥ 5 then s
  else String.mk (List.replicate (5 - s.length) '0') ++ s

/-- `unique()` over a list of zips: distinct values, first occurrence
order. -/
def uniqueZips : List String → List String
  | [] => []
  | z :: rest => z :: uniqueZips (rest.filter (fun t => decide (t ≠ z)))
termination_by zips => zips.length
decreasing_by
  simp only [List.length_cons]
  exact Nat.lt_succ_of_le (List.length_filter_le _ _)

/-- `load_crime` (`backend/providers/crime_stub.py`): empty input yields an
empty table; otherwise one row per distinct zip, zero-filled to width 5,
with the neutral `crime_index = 1.0`. -/
def load_crime (zips : List String) : List CrimeRow :=
  if zips.isEmpty then []
  else (uniqueZips zips).map (fun z => ⟨zfill5 z, 1⟩)

/-- The crime merge of `run` (`backend/cli.py`): left-join the crime table
on `zip` and fill the missing `crime_index` with the neutral `1.0`.  The
`crime_index` field of the row is (re)populated by this merge. -/
def mergeCrime (df : List BaseRow) (crime : List CrimeRow) : List BaseRow :=
  df.map (fun r =>
    { r with
      crime_index :=
        match crime.find? (fun c => decide (c.zip = r.zip)) with
        | some c => c.crime_index
        | none => 1 })

/-- The §4.4 score formula as the specification words it:
`cap_rate·w_cap + cash_on_cash·w_coc + dscr·w_dscr + (1,000,000/price)·w_price`.
Stated from the spec, to be compared against the code's `scoreRow`. -/
def specScore (w : Weights) (r : FinRow) : ℚ :=
  r.cap_rate * w.cap_rate + r.cash_on_cash * w.cash_on_cash +
    r.dscr * w.dscr + 1000000 / r.price * w.price

/-! ### Sample inputs used by the witness theorems -/

/-- A merged-table row with zero price and rent. -/
def sampleBase : BaseRow :=
  { zip := "00001", state := "TX", price := 0, rent := 0, eff_tax_rate := 0
    inventory_hits := 0, crime_index := 1 }

/-- All-zero income assumptions. -/
def zeroAssumptions : Assumptions :=
  { vacancy_rate := 0, maintenance_pct := 0, property_management_pct := 0
    insurance_pct := 0, capex_pct := 0 }

/-- A zero-rate 30-year loan with no down payment. -/
def zeroLoan : LoanParams :=
  { rate := 0, term_years := 30, down_payment_pct := 0 }

/-- All-zero cash costs. -/
def zeroCosts : CashCosts :=
  { closing_costs_pct := 0, inspection := 0, appraisal := 0
    title_insurance := 0, rehab := 0, reserves_months := 0 }

/-- A fully populated financing row that passes permissive thresholds. -/
def sampleFin : FinRow :=
  { zip := "75001", state := "TX", price := 1000000, rent := 10000
    eff_tax_rate := 0, inventory_hits := 0, crime_index := 1
    gross_income := 120000, vacancy_loss := 0, egi := 120000, tax_expense := 0
    insurance_expense := 0, repairs := 0, management := 0, capex := 0
    operating_expenses := 0, noi := 120000, cap_rate := 1
    loan_amount := 0, down_payment := 0, monthly_payment := 0
    monthly_piti := 0, reserves := 0, rehab_cost := 0
    annual_debt_service := 0, cash_needed := 0, dscr := 1, cash_on_cash := 1 }

/-- Thresholds that `sampleFin` passes. -/
def openThresholds : Thresholds :=
  { cap_threshold := 0, max_cash := 1000000000, min_dscr := 0 }

/-- Unit scoring weights. -/
def unitWeights : Weights :=
  { cap_rate := 1, cash_on_cash := 1, dscr := 1, price := 1 }

/-- `sampleFin` with an elevated crime index. -/
def sampleFinHighCrime : FinRow :=
  { sampleFin with crime_index := 13/10 }

/-- The financing row produced by the zero-configuration pipeline from
`sampleBase`. -/
def sampleZeroFin : FinRow :=
  { zip := "00001", state := "TX", price := 0, rent := 0, eff_tax_rate := 0
    inventory_hits := 0, crime_index := 1
    gross_income := 0, vacancy_loss := 0, egi := 0, tax_expense := 0
    insurance_expense := 0, repairs := 0, management := 0, capex := 0
    operating_expenses := 0, noi := 0, cap_rate := 0
    loan_amount := 0, down_payment := 0, monthly_payment := 0
    monthly_piti := 0, reserves := 0, rehab_cost := 0
    annual_debt_service := 0, cash_needed := 0, dscr := 0, cash_on_cash := 0 }

/-- A two-row latest snapshot: one zip changed materially, one new. -/
def sampleLatestSnap : List SnapRow :=
  [⟨"00501", 12, 5, 50000⟩, ⟨"00601", 5, 6, 40000⟩]

/-- A two-row since snapshot: one zip shared with the latest snapshot, one
removed. -/
def sampleSinceSnap : List SnapRow :=
  [⟨"00501", 10, 5, 50000⟩, ⟨"00701", 3, 7, 30000⟩]

/-- A three-row winsorization input: a two-row TX group and a singleton CA
group. -/
def sampleWRows : List WRow :=
  [⟨"TX", 10⟩, ⟨"TX", 20⟩, ⟨"CA", 7⟩]

example :
    mortgage_payment 0 (13/200) 30 = some 0 := by norm_num [mortgage_payment]

example :
    mortgage_payment 360000 0 30 = some 1000 := by norm_num [mortgage_payment]

example :
    mortgage_payment 5 0 0 = none := by norm_num [mortgage_payment]

example :
    quantile [3] (1/100) = 3 := by
  norm_num [quantile, List.insertionSort, Rat.floor]

example :
    winsorize_by_state [⟨"TX", 10⟩, ⟨"CA", 7⟩] = [⟨"TX", 10⟩, ⟨"CA", 7⟩] := by
  simp +decide [winsorize_by_state, uniqueStates, winsorStep, groupVals, quantile,
    List.insertionSort, List.orderedInsert, Rat.floor, clipQ]

/-! ## Claim theorems -/

/-- C4: `compute_caps` derives the income attributes by the exact chain
`gross_income = rent·12`, `vacancy_loss = gross_income·vacancy_rate`,
`egi = gross_income - vacancy_loss`, `tax_expense = price·eff_tax_rate`,
`insurance_expense`/`repairs`/`capex` as `price` times their percentage,
`management = egi·property_management_pct` (based on EGI, not price),
`operating_expenses` exactly the sum of the five expense lines, and
`noi = egi - operating_expenses`. -/
theorem compute_caps_row_exact_chain (a : Assumptions) (r : BaseRow) :
    (compute_caps_row true a r).gross_income = r.rent * 12 ∧
    (compute_caps_row true a r).vacancy_loss =
      (compute_caps_row true a r).gross_income * a.vacancy_rate ∧
    (compute_caps_row true a r).egi =
      (compute_caps_row true a r).gross_income -
        (compute_caps_row true a r).vacancy_loss ∧
    (compute_caps_row true a r).tax_expense = r.price * r.eff_tax_rate ∧
    (compute_caps_row true a r).insurance_expense = r.price * a.insurance_pct ∧
    (compute_caps_row true a r).repairs = r.price * a.maintenance_pct ∧
    (compute_caps_row true a r).capex = r.price * a.capex_pct ∧
    (compute_caps_row true a r).management =
      (compute_caps_row true a r).egi * a.property_management_pct ∧
    (compute_caps_row true a r).operating_expenses =
      (compute_caps_row true a r).tax_expense +
        (compute_caps_row true a r).insurance_expense +
        (compute_caps_row true a r).repairs +
        (compute_caps_row true a r).management +
        (compute_caps_row true a r).capex ∧
    (compute_caps_row true a r).noi =
      (compute_caps_row true a r).egi -
        (compute_caps_row true a r).operating_expenses := by
  refine ⟨rfl, rfl, rfl, ?_, rfl, rfl, rfl, rfl, rfl, rfl⟩
  simp [compute_caps_row]

/-- C5 counterexample: with a nonzero principal, zero rate and
`term_years = 0`, `mortgage_payment` raises `ZeroDivisionError`
(`principal / num_payments` with `num_payments = 0`) instead of returning
the claimed value `P/(T·12)`. -/
theorem mortgage_payment_zero_term_cex :
    ¬ (mortgage_payment 7 0 0 = some (7 / ((((0:ℤ) * 12 : ℤ)) : ℚ))) := by
  have h : mortgage_payment 7 0 0 = none := by norm_num [mortgage_payment]
  rw [h]
  intro hc
  exact Option.noConfusion hc

/-- C5 (amended): `mortgage_payment(0, rate, term)` returns `0` for every
rate and term; and for every principal `P` and term `T ≠ 0`,
`mortgage_payment(P, 0, T)` returns `P/(T·12)` (straight-line, no
interest).  At `T = 0` with `P ≠ 0` the function divides by zero instead
of returning a value. -/
theorem mortgage_payment_special_cases :
    (∀ (rate : ℚ) (t : ℤ), mortgage_payment 0 rate t = some 0) ∧
    (∀ (P : ℚ) (t : ℤ), t ≠ 0 →
      mortgage_payment P 0 t = some (P / ((t : ℚ) * 12))) := by
  constructor
  · intro rate t
    simp [mortgage_payment]
  · intro P t ht
    by_cases hP : P = 0
    · subst hP
      simp [mortgage_payment]
    · have hcast : ((t * 12 : ℤ) : ℚ) = (t : ℚ) * 12 := by push_cast; ring
      have h12 : ((t : ℚ) * 12) ≠ 0 :=
        mul_ne_zero (Int.cast_ne_zero.mpr ht) (by norm_num)
      simp [mortgage_payment, hP, hcast, h12]

/-- C5 witness: the amended claim evaluated at concrete inputs. -/
theorem mortgage_payment_special_cases_witness :
    mortgage_payment 0 (7/100) 15 = some 0 ∧
    mortgage_payment 5 0 30 = some (5 / (((30:ℤ) : ℚ) * 12)) :=
  ⟨mortgage_payment_special_cases.1 (7/100) 15,
   mortgage_payment_special_cases.2 5 30 (by norm_num)⟩

/-- C10: `mortgage_payment` is total (returns a value, never raising) for
every `principal ≥ 0`, `rate ≥ 0`, `term_years ≥ 1`; and the precondition
`term_years ≥ 1` is necessary: at `principal = 1`, `rate = 0`,
`term_years = 0` the expression `principal / num_payments` divides by
zero. -/
theorem mortgage_payment_total :
    (∀ (p rate : ℚ) (t : ℤ), 0 ≤ p → 0 ≤ rate → 1 ≤ t →
      (mortgage_payment p rate t).isSome = true) ∧
    mortgage_payment 1 0 0 = none := by
  constructor
  · intro p rate t hp hr ht
    by_cases hp0 : p = 0
    · simp [mortgage_payment, hp0]
    · by_cases hr0 : rate / 12 = 0
      · have h12 : ((t * 12 : ℤ) : ℚ) ≠ 0 := by
          exact_mod_cast (by omega : (t * 12 : ℤ) ≠ 0)
        simp only [mortgage_payment, hp0, if_false, hr0, if_pos rfl]
        simp [h12]
        omega
      · have hrpos : 0 < rate / 12 :=
          lt_of_le_of_ne (div_nonneg hr (by norm_num)) (Ne.symm hr0)
        have h1 : (1:ℚ) < 1 + rate / 12 := by linarith
        have hgrow : (1:ℚ) < (1 + rate / 12) ^ (t * 12 : ℤ) :=
          one_lt_zpow₀ h1 (by omega)
        have hne : (1 + rate / 12) ^ (t * 12 : ℤ) - 1 ≠ 0 :=
          sub_ne_zero.mpr (ne_of_gt hgrow)
        have hcond : ¬ (1 + rate / 12 = 0 ∧ t * 12 < 0) := by
          rintro ⟨h0, -⟩
          rw [h0] at h1
          exact absurd h1 (by norm_num)
        simp [mortgage_payment, hp0, hr0, hcond, hne]
  · norm_num [mortgage_payment]

/-- C10 witness: totality evaluated at a concrete positive-rate input. -/
theorem mortgage_payment_total_witness :
    (mortgage_payment 100 12 1).isSome = true :=
  mortgage_payment_total.1 100 12 1 (by norm_num) (by norm_num) (by norm_num)

/-- C2: after `compute_caps` and `attach_financing_constraints` the
`cap_rate`, `dscr` and `cash_on_cash` columns are never non-finite: each is
a division whose non-finite outcomes (exactly the zero-denominator cases,
over exact arithmetic) are coerced to `0`, and otherwise equals the plain
quotient.  In particular `price = 0` does not raise — the financing stage
still returns a row — and yields `cap_rate = 0` exactly. -/
theorem nonfinite_divisions_coerced (hasTax : Bool) (a : Assumptions)
    (lp : LoanParams) (cc : CashCosts) (r : BaseRow) :
    (r.price = 0 → (compute_caps_row hasTax a r).cap_rate = 0) ∧
    (r.price ≠ 0 → (compute_caps_row hasTax a r).cap_rate =
      (compute_caps_row hasTax a r).noi / r.price) ∧
    (r.price = 0 → ∃ out,
      attach_financing_constraints_row lp cc (compute_caps_row hasTax a r) =
        some out ∧ out.cap_rate = 0) ∧
    (∀ (c : CapsRow) (out : FinRow),
      attach_financing_constraints_row lp cc c = some out →
      (out.annual_debt_service = 0 → out.dscr = 0) ∧
      (out.annual_debt_service ≠ 0 →
        out.dscr = out.noi / out.annual_debt_service) ∧
      (out.cash_needed = 0 → out.cash_on_cash = 0) ∧
      (out.cash_needed ≠ 0 →
        out.cash_on_cash =
          (out.noi - out.annual_debt_service) / out.cash_needed)) := by
  refine ⟨fun h => by simp [compute_caps_row, h],
          fun h => by simp [compute_caps_row, h],
          fun h => ?_,
          fun c out hatt => ?_⟩
  · have hmp : mortgage_payment
        ((compute_caps_row hasTax a r).price * (1 - lp.down_payment_pct))
        lp.rate lp.term_years = some 0 := by
      have hp : (compute_caps_row hasTax a r).price = r.price := rfl
      rw [hp, h, zero_mul]
      simp [mortgage_payment]
    cases hres : attach_financing_constraints_row lp cc
        (compute_caps_row hasTax a r) with
    | none =>
      rw [attach_financing_constraints_row, hmp] at hres
      cases hres
    | some out =>
      refine ⟨out, rfl, ?_⟩
      rw [attach_financing_constraints_row, hmp] at hres
      simp only [Option.some.injEq] at hres
      subst hres
      show (compute_caps_row hasTax a r).cap_rate = 0
      simp [compute_caps_row, h]
  · simp only [attach_financing_constraints_row] at hatt
    cases hmp : mortgage_payment (c.price * (1 - lp.down_payment_pct))
        lp.rate lp.term_years with
    | none => rw [hmp] at hatt; cases hatt
    | some mp =>
      rw [hmp] at hatt
      simp only [Option.some.injEq] at hatt
      subst hatt
      refine ⟨fun h0 => ?_, fun h0 => ?_, fun h0 => ?_, fun h0 => ?_⟩
      · show (if mp * 12 = 0 then (0:ℚ) else c.noi / (mp * 12)) = 0
        rw [if_pos h0]
      · show (if mp * 12 = 0 then (0:ℚ) else c.noi / (mp * 12)) =
          c.noi / (mp * 12)
        rw [if_neg h0]
      · exact if_pos h0
      · exact if_neg h0

/-- C2 witness: a zero-price row flows through both stages and gets
`cap_rate = 0`. -/
theorem nonfinite_divisions_coerced_witness :
    (compute_caps_row true zeroAssumptions sampleBase).cap_rate = 0 ∧
    (∃ out,
      attach_financing_constraints_row zeroLoan zeroCosts
          (compute_caps_row true zeroAssumptions sampleBase) = some out ∧
        out.cap_rate = 0) :=
  ⟨(nonfinite_divisions_coerced true zeroAssumptions zeroLoan zeroCosts
      sampleBase).1 rfl,
   (nonfinite_divisions_coerced true zeroAssumptions zeroLoan zeroCosts
      sampleBase).2.2.1 rfl⟩

/-- The crime-penalty map leaves every field but `score` unchanged. -/
theorem crimePenaltyRow_toFinRow (y : ScoredRow) :
    ((if y.crime_index > 5/4 then { y with score := y.score * (95/100) }
      else y) : ScoredRow).toFinRow = y.toFinRow := by
  split <;> rfl

/-- Tracing a member of the final ranked table back through the sort, the
penalty, the scoring and the hard filter. -/
theorem mem_runFilterRank {t : Thresholds} {w : Weights} {rows : List FinRow}
    {x : ScoredRow} (hx : x ∈ runFilterRank t w rows) :
    ∃ f, f ∈ rows ∧
      (decide (f.cap_rate ≥ t.cap_threshold) &&
       decide (f.cash_needed ≤ t.max_cash) &&
       decide (f.dscr ≥ t.min_dscr)) = true ∧
      x = (if (scoreRow w f).crime_index > 5/4 then
            { scoreRow w f with score := (scoreRow w f).score * (95/100) }
          else scoreRow w f) := by
  rw [runFilterRank, sortByScoreDesc, List.mem_insertionSort,
    applyCrimePenalty, List.mem_map] at hx
  obtain ⟨y, hy, hxy⟩ := hx
  rw [List.mem_map] at hy
  obtain ⟨f, hf, hyf⟩ := hy
  rw [hardFilter, List.mem_filter] at hf
  exact ⟨f, hf.1, hf.2, by rw [← hxy, ← hyf]⟩

/-- C1: every row of the final ranked table passes all three hard filters
simultaneously: `cap_rate ≥ cap_threshold`, `cash_needed ≤ max_cash` and
`dscr ≥ min_dscr`; no row violating any clause survives to the output. -/
theorem run_hard_filter_sound (t : Thresholds) (w : Weights)
    (rows : List FinRow) (x : ScoredRow) (hx : x ∈ runFilterRank t w rows) :
    x.cap_rate ≥ t.cap_threshold ∧ x.cash_needed ≤ t.max_cash ∧
      x.dscr ≥ t.min_dscr := by
  obtain ⟨f, -, hcond, hxval⟩ := mem_runFilterRank hx
  have hxf : x.toFinRow = f := by
    rw [hxval]
    exact crimePenaltyRow_toFinRow (scoreRow w f)
  simp only [Bool.and_eq_true, decide_eq_true_eq] at hcond
  obtain ⟨⟨h1, h2⟩, h3⟩ := hcond
  have e1 : x.cap_rate = f.cap_rate := congrArg (fun z => z.cap_rate) hxf
  have e2 : x.cash_needed = f.cash_needed :=
    congrArg (fun z => z.cash_needed) hxf
  have e3 : x.dscr = f.dscr := congrArg (fun z => z.dscr) hxf
  rw [e1, e2, e3]
  exact ⟨h1, h2, h3⟩

/-- C1 witness: a concrete passing row appears in the output and satisfies
the three filters. -/
theorem run_hard_filter_sound_witness :
    (⟨sampleFin, 4⟩ : ScoredRow) ∈
        runFilterRank openThresholds unitWeights [sampleFin] ∧
      ((⟨sampleFin, 4⟩ : ScoredRow).cap_rate ≥ openThresholds.cap_threshold ∧
       (⟨sampleFin, 4⟩ : ScoredRow).cash_needed ≤ openThresholds.max_cash ∧
       (⟨sampleFin, 4⟩ : ScoredRow).dscr ≥ openThresholds.min_dscr) := by
  have hmem : (⟨sampleFin, 4⟩ : ScoredRow) ∈
      runFilterRank openThresholds unitWeights [sampleFin] := by
    have hrun : runFilterRank openThresholds unitWeights [sampleFin] =
        [⟨sampleFin, 4⟩] := by
      norm_num [runFilterRank, hardFilter, scoreRow, applyCrimePenalty,
        sortByScoreDesc, List.insertionSort, sampleFin, openThresholds,
        unitWeights]
    rw [hrun]
    exact List.mem_singleton.mpr rfl
  exact ⟨hmem,
    run_hard_filter_sound openThresholds unitWeights [sampleFin] _ hmem⟩

/-- C3: every row of the final ranked table carries the score
`cap_rate·w_cap + cash_on_cash·w_coc + dscr·w_dscr + (1,000,000/price)·w_price`,
multiplied by `0.95` exactly when `crime_index > 1.25`; a row with
`crime_index = 1.3` gets exactly `0.95×` the unpenalized score and a row
with `crime_index = 1.2` is unpenalized. -/
theorem run_score_formula (t : Thresholds) (w : Weights)
    (rows : List FinRow) (x : ScoredRow) (hx : x ∈ runFilterRank t w rows) :
    (x.score = if x.crime_index > 5/4 then 95/100 * specScore w x.toFinRow
      else specScore w x.toFinRow) ∧
    (x.crime_index = 13/10 → x.score = 95/100 * specScore w x.toFinRow) ∧
    (x.crime_index = 12/10 → x.score = specScore w x.toFinRow) := by
  obtain ⟨f, -, -, hxval⟩ := mem_runFilterRank hx
  have hxf : x.toFinRow = f := by
    rw [hxval]
    exact crimePenaltyRow_toFinRow (scoreRow w f)
  have hspec : (scoreRow w f).score = specScore w f := by
    rw [scoreRow, specScore]
    ring
  have hmain : x.score = if x.crime_index > 5/4 then
      95/100 * specScore w x.toFinRow else specScore w x.toFinRow := by
    rw [hxf]
    by_cases hc : f.crime_index > 5/4
    · rw [if_pos hc, hxval, if_pos (show (scoreRow w f).crime_index > 5/4 from hc)]
      show (scoreRow w f).score * (95/100) = 95/100 * specScore w f
      rw [hspec, mul_comm]
    · rw [if_neg hc, hxval, if_neg (show ¬ (scoreRow w f).crime_index > 5/4 from hc)]
      exact hspec
  refine ⟨hmain, fun h13 => ?_, fun h12 => ?_⟩
  · rw [hmain, if_pos (by rw [h13]; norm_num)]
  · rw [hmain, if_neg (by rw [h12]; norm_num)]

/-- C3 witness: a concrete elevated-crime row gets exactly `0.95×` its
unpenalized score. -/
theorem run_score_formula_witness :
    (⟨sampleFinHighCrime, 19/5⟩ : ScoredRow) ∈
        runFilterRank openThresholds unitWeights [sampleFinHighCrime] ∧
      (⟨sampleFinHighCrime, 19/5⟩ : ScoredRow).score =
        95/100 * specScore unitWeights
          (⟨sampleFinHighCrime, 19/5⟩ : ScoredRow).toFinRow := by
  have hmem : (⟨sampleFinHighCrime, 19/5⟩ : ScoredRow) ∈
      runFilterRank openThresholds unitWeights [sampleFinHighCrime] := by
    have hrun : runFilterRank openThresholds unitWeights [sampleFinHighCrime] =
        [⟨sampleFinHighCrime, 19/5⟩] := by
      norm_num [runFilterRank, hardFilter, scoreRow, applyCrimePenalty,
        sortByScoreDesc, List.insertionSort, sampleFinHighCrime, sampleFin,
        openThresholds, unitWeights]
    rw [hrun]
    exact List.mem_singleton.mpr rfl
  exact ⟨hmem,
    (run_score_formula openThresholds unitWeights [sampleFinHighCrime] _
        hmem).2.1 (by norm_num [sampleFinHighCrime, sampleFin])⟩

/-- A successful `attach_financing_constraints` call copies the incoming
`compute_caps` columns unchanged into the output row. -/
theorem attach_row_preserves_toCapsRow {lp : LoanParams} {cc : CashCosts}
    {c : CapsRow} {out : FinRow}
    (h : attach_financing_constraints_row lp cc c = some out) :
    out.toCapsRow = c := by
  rw [attach_financing_constraints_row] at h
  cases hmp : mortgage_payment (c.price * (1 - lp.down_payment_pct))
      lp.rate lp.term_years with
  | none => rw [hmp] at h; cases h
  | some mp =>
    rw [hmp] at h
    simp only [Option.some.injEq] at h
    subst h
    rfl

/-- C9: the crime provider wired into the pipeline returns
`crime_index = 1.0` for every zip of a non-empty request, the crime merge
then gives every pipeline row `crime_index = 1.0`, and consequently the
soft crime penalty branch is unreachable: every ranked row keeps exactly
its unpenalized score. -/
theorem crime_stub_penalty_unreachable
    (zips : List String) (df : List BaseRow) (t : Thresholds) (w : Weights)
    (hasTax : Bool) (a : Assumptions) (lp : LoanParams) (cc : CashCosts)
    (fins : List FinRow)
    (hz : zips ≠ [])
    (hfin : ∀ f ∈ fins, ∃ b ∈ mergeCrime df (load_crime zips),
      attach_financing_constraints_row lp cc (compute_caps_row hasTax a b) =
        some f) :
    (∀ c ∈ load_crime zips, c.crime_index = 1) ∧
    (∀ b ∈ mergeCrime df (load_crime zips), b.crime_index = 1) ∧
    (∀ x ∈ runFilterRank t w fins,
      x.crime_index = 1 ∧ x.score = (scoreRow w x.toFinRow).score) := by
  have hcrime : ∀ c ∈ load_crime zips, c.crime_index = 1 := by
    intro c hc
    rw [load_crime] at hc
    rcases he : zips.isEmpty with _ | _
    · rw [he] at hc
      simp only [Bool.false_eq_true, if_false, List.mem_map] at hc
      obtain ⟨z, -, rfl⟩ := hc
      rfl
    · exact absurd (List.isEmpty_iff.mp he) hz
  have hmerge : ∀ b ∈ mergeCrime df (load_crime zips), b.crime_index = 1 := by
    intro b hb
    rw [mergeCrime, List.mem_map] at hb
    obtain ⟨r0, -, rfl⟩ := hb
    show ((match (load_crime zips).find? (fun c => decide (c.zip = r0.zip)) with
      | some c => c.crime_index
      | none => 1 : ℚ)) = (1 : ℚ)
    cases hfind : (load_crime zips).find? (fun c => decide (c.zip = r0.zip)) with
    | none => rfl
    | some c => exact hcrime c (List.mem_of_find?_eq_some hfind)
  refine ⟨hcrime, hmerge, fun x hx => ?_⟩
  obtain ⟨f, hfmem, -, hxval⟩ := mem_runFilterRank hx
  obtain ⟨b, hbmem, hatt⟩ := hfin f hfmem
  have hfc : f.toCapsRow = compute_caps_row hasTax a b :=
    attach_row_preserves_toCapsRow hatt
  have hfcrime : f.crime_index = 1 := by
    have : f.crime_index = (compute_caps_row hasTax a b).crime_index :=
      congrArg (fun z => z.crime_index) hfc
    rw [this]
    show b.crime_index = 1
    exact hmerge b hbmem
  have hnopen : ¬ (scoreRow w f).crime_index > 5/4 := by
    show ¬ f.crime_index > 5/4
    rw [hfcrime]
    norm_num
  rw [if_neg hnopen] at hxval
  subst hxval
  exact ⟨hfcrime, rfl⟩

/-- C9 witness: the unreachability chain evaluated on a concrete zip list,
row and zero configuration. -/
theorem crime_stub_penalty_unreachable_witness :
    (∀ c ∈ load_crime ["1"], c.crime_index = 1) ∧
    (∀ b ∈ mergeCrime [sampleBase] (load_crime ["1"]), b.crime_index = 1) ∧
    (∀ x ∈ runFilterRank openThresholds unitWeights [sampleZeroFin],
      x.crime_index = 1 ∧
        x.score = (scoreRow unitWeights x.toFinRow).score) := by
  refine crime_stub_penalty_unreachable ["1"] [sampleBase] openThresholds
    unitWeights true zeroAssumptions zeroLoan zeroCosts [sampleZeroFin]
    (by decide) ?_
  intro f hf
  rw [List.mem_singleton] at hf
  subst hf
  refine ⟨sampleBase, ?_, ?_⟩
  · have hload : load_crime ["1"] = [⟨"00001", 1⟩] := by
      simp +decide [load_crime, uniqueZips, zfill5]
    have hm : mergeCrime [sampleBase] (load_crime ["1"]) = [sampleBase] := by
      rw [hload]
      simp +decide [mergeCrime, sampleBase]
    rw [hm]
    exact List.mem_singleton.mpr rfl
  · norm_num [attach_financing_constraints_row, compute_caps_row,
      mortgage_payment, zeroLoan, zeroCosts, zeroAssumptions, sampleBase,
      sampleZeroFin]

/-- C7: the two validation cases abort exactly when their condition fails
and never default silently: the required-column check succeeds iff both
`price` and `rent` are present and otherwise errors naming exactly the
missing columns and the available columns; the delta since-snapshot check
succeeds iff the expected snapshot file exists and otherwise errors naming
that exact file. -/
theorem validation_errors (available existing : List String)
    (sinceStr : String) :
    (checkRequiredColumns available = Except.ok () ↔
      ("price" ∈ available ∧ "rent" ∈ available)) ∧
    (∀ e, checkRequiredColumns available = Except.error e →
      ¬ ("price" ∈ available ∧ "rent" ∈ available) ∧
      (∀ c, c ∈ e.missing ↔
        (c ∈ (["price", "rent"] : List String) ∧ c ∉ available)) ∧
      e.missing ≠ [] ∧ e.available = available) ∧
    (checkSinceSnapshot existing sinceStr = Except.ok () ↔
      sinceSnapshotPath sinceStr ∈ existing) ∧
    (∀ e, checkSinceSnapshot existing sinceStr = Except.error e →
      sinceSnapshotPath sinceStr ∉ existing ∧
      e.expected = sinceSnapshotPath sinceStr) := by
  have hnil : (["price", "rent"].filter (fun c => !(available.contains c))) = []
      ↔ ("price" ∈ available ∧ "rent" ∈ available) := by
    rw [List.filter_eq_nil_iff]
    simp
  refine ⟨?_, fun e he => ?_, ?_, fun e he => ?_⟩
  · constructor
    · intro h
      by_contra hno
      have hne : (["price", "rent"].filter
          (fun c => !(available.contains c))).isEmpty ≠ true :=
        fun heq => hno (hnil.mp (List.isEmpty_iff.mp heq))
      rw [checkRequiredColumns, if_neg hne] at h
      cases h
    · intro hpr
      have heq := hnil.mpr hpr
      rw [checkRequiredColumns, if_pos (List.isEmpty_iff.mpr heq)]
  · have hne : (["price", "rent"].filter
        (fun c => !(available.contains c))).isEmpty ≠ true := by
      intro htrue
      rw [checkRequiredColumns, if_pos htrue] at he
      cases he
    rw [checkRequiredColumns, if_neg hne] at he
    simp only [Except.error.injEq] at he
    subst he
    have hemiss : (MergeError.mk
        (["price", "rent"].filter (fun c => !(available.contains c)))
        available).missing =
        ["price", "rent"].filter (fun c => !(available.contains c)) := rfl
    have heavail : (MergeError.mk
        (["price", "rent"].filter (fun c => !(available.contains c)))
        available).available = available := rfl
    refine ⟨?_, ?_, ?_, heavail⟩
    · intro hpr
      exact hne (List.isEmpty_iff.mpr (hnil.mpr hpr))
    · intro c
      rw [hemiss, List.mem_filter]
      simp
    · rw [hemiss]
      intro heq
      exact hne (List.isEmpty_iff.mpr heq)
  · constructor
    · intro h
      by_contra hno
      have : existing.contains (sinceSnapshotPath sinceStr) ≠ true := by
        intro hc
        exact hno (List.mem_of_elem_eq_true hc)
      rw [checkSinceSnapshot, if_neg this] at h
      cases h
    · intro hmem
      rw [checkSinceSnapshot, if_pos (List.elem_eq_true_of_mem hmem)]
  · have hnc : existing.contains (sinceSnapshotPath sinceStr) ≠ true := by
      intro hc
      rw [checkSinceSnapshot, if_pos hc] at he
      cases he
    rw [checkSinceSnapshot, if_neg hnc] at he
    simp only [Except.error.injEq] at he
    subst he
    exact ⟨fun hmem => hnc (List.elem_eq_true_of_mem hmem), rfl⟩

/-- C7 witness: both checks evaluated at concrete column and file lists. -/
theorem validation_errors_witness :
    (checkRequiredColumns ["zip", "price", "rent"] = Except.ok () ↔
      ("price" ∈ (["zip", "price", "rent"] : List String) ∧
       "rent" ∈ (["zip", "price", "rent"] : List String))) ∧
    (∀ e, checkRequiredColumns ["zip", "price", "rent"] = Except.error e →
      ¬ ("price" ∈ (["zip", "price", "rent"] : List String) ∧
         "rent" ∈ (["zip", "price", "rent"] : List String)) ∧
      (∀ c, c ∈ e.missing ↔
        (c ∈ (["price", "rent"] : List String) ∧
          c ∉ (["zip", "price", "rent"] : List String))) ∧
      e.missing ≠ [] ∧ e.available = ["zip", "price", "rent"]) ∧
    (checkSinceSnapshot [] "20240101" = Except.ok () ↔
      sinceSnapshotPath "20240101" ∈ ([] : List String)) ∧
    (∀ e, checkSinceSnapshot [] "20240101" = Except.error e →
      sinceSnapshotPath "20240101" ∉ ([] : List String) ∧
      e.expected = sinceSnapshotPath "20240101") :=
  validation_errors ["zip", "price", "rent"] [] "20240101"

/-- Every emitted delta row carries the zip of the merged row it came
from. -/
theorem deltaOfMerged_zip {m : MergedRow} {d : DeltaRow}
    (h : deltaOfMerged m = some d) : d.zip = m.zip := by
  rcases m with ⟨z, ind, lat, snc⟩
  cases ind <;> rcases lat with _ | l <;> rcases snc with _ | s <;>
    simp only [deltaOfMerged] at h
  all_goals first
    | (cases h)
    | (rw [← Option.some.inj h])
    | (split at h
       · rw [← Option.some.inj h]
       · cases h)
  all_goals rfl

/-- Two snapshot rows of a zip-deduplicated snapshot with the same zip are
the same row. -/
theorem snap_eq_of_zip_eq {lst : List SnapRow}
    (h : (lst.map (fun r => r.zip)).Nodup) {a b : SnapRow}
    (ha : a ∈ lst) (hb : b ∈ lst) (hz : a.zip = b.zip) : a = b :=
  List.inj_on_of_nodup_map h ha hb hz

/-- C6: between two snapshots with unique zips, the delta computation
classifies a zip present only in the latest snapshot as `new` with deltas
equal to the latest values, a zip present only in the since snapshot as
`removed` with deltas equal to the negated since values, and a zip present
in both as `changed` with deltas latest minus since — emitted iff
`|score_delta| > 0.01` or `|cap_rate_delta| > 0.001` or
`|cash_needed_delta| > 100`; a zip in both with no material change
produces no delta row at all. -/
theorem deltas_classification (latest since : List SnapRow)
    (hl : (latest.map (fun r => r.zip)).Nodup)
    (hs : (since.map (fun r => r.zip)).Nodup) :
    (∀ l ∈ latest, (∀ s ∈ since, s.zip ≠ l.zip) →
      (⟨l.zip, "new", l.score, l.cap_rate, l.cash_needed⟩ : DeltaRow) ∈
        computeDeltas latest since) ∧
    (∀ s ∈ since, (∀ l ∈ latest, l.zip ≠ s.zip) →
      (⟨s.zip, "removed", -s.score, -s.cap_rate, -s.cash_needed⟩ : DeltaRow) ∈
        computeDeltas latest since) ∧
    (∀ l ∈ latest, ∀ s ∈ since, l.zip = s.zip →
      ((|l.score - s.score| > 1/100 ∨ |l.cap_rate - s.cap_rate| > 1/1000 ∨
          |l.cash_needed - s.cash_needed| > 100) →
        (⟨l.zip, "changed", l.score - s.score, l.cap_rate - s.cap_rate,
            l.cash_needed - s.cash_needed⟩ : DeltaRow) ∈
          computeDeltas latest since) ∧
      (¬ (|l.score - s.score| > 1/100 ∨ |l.cap_rate - s.cap_rate| > 1/1000 ∨
          |l.cash_needed - s.cash_needed| > 100) →
        ∀ d ∈ computeDeltas latest since, d.zip ≠ l.zip)) := by
  refine ⟨?_, ?_, ?_⟩
  · -- new
    intro l hlmem hnos
    have hfind : since.find? (fun s => decide (s.zip = l.zip)) = none := by
      rw [List.find?_eq_none]
      intro s hsmem hdec
      exact hnos s hsmem (of_decide_eq_true hdec)
    rw [computeDeltas, List.mem_filterMap]
    refine ⟨⟨l.zip, MergeInd.left_only, some l, none⟩, ?_, rfl⟩
    rw [outerMergeOnZip, List.mem_append]
    exact Or.inl (List.mem_map.mpr ⟨l, hlmem, by rw [hfind]⟩)
  · -- removed
    intro s hsmem hnol
    have hany : latest.any (fun l => decide (l.zip = s.zip)) = false := by
      rw [List.any_eq_false]
      intro l hlmem hdec
      exact hnol l hlmem (of_decide_eq_true hdec)
    rw [computeDeltas, List.mem_filterMap]
    refine ⟨⟨s.zip, MergeInd.right_only, none, some s⟩, ?_, rfl⟩
    rw [outerMergeOnZip, List.mem_append]
    refine Or.inr (List.mem_map.mpr ⟨s, ?_, rfl⟩)
    rw [List.mem_filter]
    exact ⟨hsmem, by rw [hany]; rfl⟩
  · -- both
    intro l hlmem s hsmem hzip
    have hfind : since.find? (fun x => decide (x.zip = l.zip)) = some s := by
      cases hf : since.find? (fun x => decide (x.zip = l.zip)) with
      | none =>
        exfalso
        rw [List.find?_eq_none] at hf
        exact hf s hsmem (decide_eq_true hzip.symm)
      | some t =>
        have ht1 : t.zip = l.zip := by simpa using List.find?_some hf
        have : t = s :=
          snap_eq_of_zip_eq hs (List.mem_of_find?_eq_some hf) hsmem
            (ht1.trans hzip)
        rw [this]
    constructor
    · intro hsig
      rw [computeDeltas, List.mem_filterMap]
      refine ⟨⟨l.zip, MergeInd.both, some l, some s⟩, ?_, ?_⟩
      · rw [outerMergeOnZip, List.mem_append]
        exact Or.inl (List.mem_map.mpr ⟨l, hlmem, by rw [hfind]⟩)
      · simp only [deltaOfMerged]
        rw [if_pos hsig]
    · intro hnot d hd hdzip
      rw [computeDeltas, List.mem_filterMap] at hd
      obtain ⟨m, hm, hdm⟩ := hd
      have hmzip : d.zip = m.zip := deltaOfMerged_zip hdm
      rw [outerMergeOnZip, List.mem_append] at hm
      rcases hm with hm | hm
      · rw [List.mem_map] at hm
        obtain ⟨l', hl'mem, hfl'⟩ := hm
        cases hfind' : since.find? (fun x => decide (x.zip = l'.zip)) with
        | some t =>
          rw [hfind'] at hfl'
          subst hfl'
          have hzz : l'.zip = l.zip := hmzip.symm.trans hdzip
          have hl'l : l' = l := snap_eq_of_zip_eq hl hl'mem hlmem hzz
          subst hl'l
          have ht1 : t.zip = l'.zip := by simpa using List.find?_some hfind'
          have hts : t = s :=
            snap_eq_of_zip_eq hs (List.mem_of_find?_eq_some hfind') hsmem
              (ht1.trans hzip)
          subst hts
          simp only [deltaOfMerged] at hdm
          rw [if_neg hnot] at hdm
          cases hdm
        | none =>
          rw [hfind'] at hfl'
          subst hfl'
          have hzz : l'.zip = l.zip := hmzip.symm.trans hdzip
          have hl'l : l' = l := snap_eq_of_zip_eq hl hl'mem hlmem hzz
          subst hl'l
          rw [List.find?_eq_none] at hfind'
          exact absurd (decide_eq_true hzip.symm) (hfind' s hsmem)
      · rw [List.mem_map] at hm
        obtain ⟨s', hs'filter, hfs'⟩ := hm
        subst hfs'
        rw [List.mem_filter] at hs'filter
        obtain ⟨hs'mem, hcond⟩ := hs'filter
        have hzz : s'.zip = l.zip := hmzip.symm.trans hdzip
        have hany : latest.any (fun l0 => decide (l0.zip = s'.zip)) = true :=
          List.any_eq_true.mpr ⟨l, hlmem, decide_eq_true hzz.symm⟩
        rw [hany] at hcond
        cases hcond

/-- C6 witness: the three classifications evaluated on concrete
snapshots — a new zip, a removed zip, and a materially changed zip. -/
theorem deltas_classification_witness :
    (⟨"00601", "new", 5, 6, 40000⟩ : DeltaRow) ∈
      computeDeltas sampleLatestSnap sampleSinceSnap ∧
    (⟨"00701", "removed", -3, -7, -30000⟩ : DeltaRow) ∈
      computeDeltas sampleLatestSnap sampleSinceSnap ∧
    (⟨"00501", "changed", 12 - 10, 5 - 5, 50000 - 50000⟩ : DeltaRow) ∈
      computeDeltas sampleLatestSnap sampleSinceSnap := by
  have h := deltas_classification sampleLatestSnap sampleSinceSnap
    (by decide) (by decide)
  refine ⟨?_, ?_, ?_⟩
  · exact h.1 ⟨"00601", 5, 6, 40000⟩ (by decide) (by decide)
  · exact h.2.1 ⟨"00701", 3, 7, 30000⟩ (by decide) (by decide)
  · exact (h.2.2 ⟨"00501", 12, 5, 50000⟩ (by decide) ⟨"00501", 10, 5, 50000⟩
      (by decide) rfl).1 (by norm_num)

/-- `winsorStep` preserves the table length. -/
theorem length_winsorStep (rows : List WRow) (st : String) :
    (winsorStep rows st).length = rows.length := by
  rw [winsorStep]
  split
  · exact List.length_map rows _
  · rfl

/-- Pointwise description of one winsorization iteration. -/
theorem winsorStep_getElem (rows : List WRow) (st : String) (i : ℕ) :
    (winsorStep rows st)[i]? = (rows[i]?).map (fun r =>
      if 0 < (groupVals rows st).length then
        (if r.state = st then
          { r with val := (clipQ (quantile (groupVals rows st) (1/100))
              (quantile (groupVals rows st) (99/100)) r.val) }
        else r)
      else r) := by
  rw [winsorStep]
  by_cases hg : 0 < (groupVals rows st).length
  · rw [if_pos hg, List.getElem?_map]
    cases rows[i]? with
    | none => rfl
    | some r => simp [hg]
  · rw [if_neg hg]
    cases hrow : rows[i]? with
    | none => rfl
    | some r => simp [hg]

/-- A winsorization iteration for one state leaves every other state's
group of column values unchanged. -/
theorem groupVals_map_of_state_eq (rows : List WRow) (f : WRow → WRow)
    (st : String) (hstate : ∀ x, (f x).state = x.state)
    (hfix : ∀ x, x.state = st → f x = x) :
    groupVals (rows.map f) st = groupVals rows st := by
  rw [groupVals, groupVals, List.filter_map]
  rw [List.filter_congr (fun x _ => by
    show decide ((f x).state = st) = decide (x.state = st)
    rw [hstate x])]
  rw [List.map_map]
  refine List.map_congr_left (fun x hx => ?_)
  rw [List.mem_filter] at hx
  have hxs : x.state = st := of_decide_eq_true hx.2
  show (f x).val = x.val
  rw [hfix x hxs]

/-- `winsorStep` for state `st` does not change the group values of any
state other than `st`. -/
theorem groupVals_winsorStep (rows : List WRow) (st st' : String)
    (hne : st' ≠ st) :
    groupVals (winsorStep rows st) st' = groupVals rows st' := by
  rw [winsorStep]
  split
  · refine groupVals_map_of_state_eq rows _ st' ?_ ?_
    · intro x
      by_cases hx : x.state = st
      · simp [hx]
      · simp [hx]
    · intro x hx
      rw [if_neg (fun heq => hne (hx.symm.trans heq))]
  · rfl

/-- The value of a row is among its own state group's values. -/
theorem val_mem_groupVals {rows : List WRow} {r : WRow} (hr : r ∈ rows) :
    r.val ∈ groupVals rows r.state := by
  rw [groupVals]
  exact List.mem_map_of_mem _
    (List.mem_filter.mpr ⟨hr, decide_eq_true rfl⟩)

/-- Pointwise description of the fold over a duplicate-free state list:
each row is clipped once, to its own state group's percentile bounds taken
from the original table, exactly when its state occurs in the list. -/
theorem foldl_winsorStep_getElem (sts : List String) (hnd : sts.Nodup)
    (rows : List WRow) (i : ℕ) (r : WRow) (hr : rows[i]? = some r) :
    (sts.foldl winsorStep rows)[i]? = some
      (if r.state ∈ sts then
        { r with val := (clipQ (quantile (groupVals rows r.state) (1/100))
            (quantile (groupVals rows r.state) (99/100)) r.val) }
      else r) := by
  induction sts generalizing rows r with
  | nil =>
    rw [List.foldl_nil, hr, if_neg (List.not_mem_nil _)]
  | cons s rest ih =>
    obtain ⟨hs, hrest⟩ := List.nodup_cons.mp hnd
    rw [List.foldl_cons]
    by_cases hstate : r.state = s
    · have hrmem : r ∈ rows := List.getElem?_mem hr
      have hg : 0 < (groupVals rows s).length := by
        rw [← hstate]
        exact List.length_pos.mpr
          (List.ne_nil_of_mem (val_mem_groupVals hrmem))
      have hr' : (winsorStep rows s)[i]? = some
          { r with val := (clipQ (quantile (groupVals rows s) (1/100))
              (quantile (groupVals rows s) (99/100)) r.val) } := by
        rw [winsorStep_getElem, hr]
        simp only [Option.map_some']
        rw [if_pos hg, if_pos hstate]
      rw [ih hrest (winsorStep rows s) _ hr']
      have hnotin : ({ r with val := (clipQ
          (quantile (groupVals rows s) (1/100))
          (quantile (groupVals rows s) (99/100)) r.val) } : WRow).state ∉
            rest := by
        show r.state ∉ rest
        rw [hstate]
        exact hs
      rw [if_neg hnotin, if_pos (by rw [hstate]; exact List.mem_cons_self s rest)]
      rw [hstate]
    · have hr' : (winsorStep rows s)[i]? = some r := by
        rw [winsorStep_getElem, hr]
        simp only [Option.map_some']
        by_cases hg : 0 < (groupVals rows s).length
        · rw [if_pos hg, if_neg hstate]
        · rw [if_neg hg]
      rw [ih hrest (winsorStep rows s) r hr']
      rw [groupVals_winsorStep rows s r.state hstate]
      have hmemiff : r.state ∈ (s :: rest) ↔ r.state ∈ rest := by
        rw [List.mem_cons]
        exact ⟨fun hc => hc.resolve_left hstate, Or.inr⟩
      by_cases hmem : r.state ∈ rest
      · rw [if_pos hmem, if_pos (hmemiff.mpr hmem)]
      · rw [if_neg hmem, if_neg (fun hc => hmem (hmemiff.mp hc))]

/-- The fold over the state list preserves the table length. -/
theorem length_foldl_winsorStep (sts : List String) (rows : List WRow) :
    (sts.foldl winsorStep rows).length = rows.length := by
  induction sts generalizing rows with
  | nil => rfl
  | cons s rest ih =>
    rw [List.foldl_cons, ih, length_winsorStep]

/-- A state is listed by `unique()` iff some row carries it. -/
theorem mem_uniqueStates (rows : List WRow) (st : String) :
    st ∈ uniqueStates rows ↔ ∃ r ∈ rows, r.state = st := by
  induction rows using uniqueStates.induct with
  | case1 => simp [uniqueStates]
  | case2 r rest ih =>
    rw [uniqueStates, List.mem_cons, ih]
    constructor
    · rintro (h | ⟨t, ht, rfl⟩)
      · exact ⟨r, List.mem_cons_self r rest, h.symm⟩
      · exact ⟨t, List.mem_cons_of_mem _ (List.mem_of_mem_filter ht), rfl⟩
    · rintro ⟨t, ht, rfl⟩
      rw [List.mem_cons] at ht
      rcases ht with rfl | ht
      · exact Or.inl rfl
      · by_cases hts : t.state = r.state
        · exact Or.inl hts
        · exact Or.inr ⟨t, List.mem_filter.mpr ⟨ht, decide_eq_true hts⟩, rfl⟩

/-- `unique()` lists each state exactly once. -/
theorem nodup_uniqueStates (rows : List WRow) :
    (uniqueStates rows).Nodup := by
  induction rows using uniqueStates.induct with
  | case1 => simp [uniqueStates]
  | case2 r rest ih =>
    rw [uniqueStates]
    refine List.nodup_cons.mpr ⟨?_, ih⟩
    intro hmem
    rw [mem_uniqueStates] at hmem
    obtain ⟨t, ht, hts⟩ := hmem
    have hf := List.mem_filter.mp ht
    exact absurd hts (of_decide_eq_true hf.2)

/-- The pandas quantile of a one-element series is its element, for every
percentile. -/
theorem quantile_singleton (v q : ℚ) : quantile [v] q = v := by
  rw [quantile]
  norm_num [List.insertionSort, List.orderedInsert]
  rw [show Rat.floor (0 : ℚ) = 0 from rfl]
  rfl

/-- C8: winsorization clips each row's value to its own state group's
1st/99th percentile bounds, computed within each state group of the input
independently; and every row of a state group with at most one row is left
unchanged. -/
theorem winsorize_by_state_per_group (rows : List WRow) :
    (winsorize_by_state rows).length = rows.length ∧
    ∀ (i : ℕ) (r : WRow), rows[i]? = some r →
      ((winsorize_by_state rows)[i]? = some
        { r with val := (clipQ (quantile (groupVals rows r.state) (1/100))
            (quantile (groupVals rows r.state) (99/100)) r.val) }) ∧
      ((groupVals rows r.state).length ≤ 1 →
        (winsorize_by_state rows)[i]? = some r) := by
  refine ⟨length_foldl_winsorStep _ _, fun i r hr => ?_⟩
  have hmem : r.state ∈ uniqueStates rows :=
    (mem_uniqueStates rows r.state).mpr ⟨r, List.getElem?_mem hr, rfl⟩
  have hclip : (winsorize_by_state rows)[i]? = some
      { r with val := (clipQ (quantile (groupVals rows r.state) (1/100))
          (quantile (groupVals rows r.state) (99/100)) r.val) } := by
    rw [winsorize_by_state,
      foldl_winsorStep_getElem (uniqueStates rows) (nodup_uniqueStates rows)
        rows i r hr, if_pos hmem]
  refine ⟨hclip, fun hle => ?_⟩
  have hvmem : r.val ∈ groupVals rows r.state :=
    val_mem_groupVals (List.getElem?_mem hr)
  have hpos : 0 < (groupVals rows r.state).length :=
    List.length_pos.mpr (List.ne_nil_of_mem hvmem)
  have hone : (groupVals rows r.state).length = 1 := le_antisymm hle hpos
  obtain ⟨a, ha⟩ := List.length_eq_one.mp hone
  have hva : r.val = a := by
    rw [ha] at hvmem
    exact List.mem_singleton.mp hvmem
  rw [hclip, ha, ← hva, quantile_singleton, quantile_singleton]
  rw [clipQ, max_self, min_self]

/-- C8 witness: a two-row TX group is clipped to its own bounds and a
singleton CA group's row is returned unchanged. -/
theorem winsorize_by_state_per_group_witness :
    (winsorize_by_state sampleWRows).length = sampleWRows.length ∧
    ((winsorize_by_state sampleWRows)[0]? = some
      { (⟨"TX", 10⟩ : WRow) with
        val := (clipQ (quantile (groupVals sampleWRows "TX") (1/100))
          (quantile (groupVals sampleWRows "TX") (99/100)) 10) }) ∧
    ((winsorize_by_state sampleWRows)[2]? = some ⟨"CA", 7⟩) := by
  have h := winsorize_by_state_per_group sampleWRows
  refine ⟨h.1, ?_, ?_⟩
  · exact (h.2 0 ⟨"TX", 10⟩ (by decide)).1
  · exact (h.2 2 ⟨"CA", 7⟩ (by decide)).2 (by decide)
